import Mathlib

/-
Verification development for the semiconductor regime long/short strategy
(src/strategy.py, class SemiconductorRegimeLongShort).

The embedding works over exact rationals; prices that pandas would hold as
NaN are modelled as `none` in `Option ℚ`.  The square root used by the
realized-volatility computations (pandas `std`, `np.sqrt(252)`) is kept as
an explicit function parameter `sq : ℚ → ℚ`, so every definition stays
executable; theorems quantify over it when the claim does not depend on
properties of the square root.
-/

namespace SemiLS

/-- Instrument identifier (QuantConnect Symbol), modelled as a natural. -/
abbrev Sym := ℕ

/-- Parameters set in `Initialize` (src/strategy.py lines 26-43). -/
structure Config where
  mom_lookback : ℕ
  vol_score_window : ℕ
  vol_target_window : ℕ
  regime_ma : ℕ
  target_annual_vol : ℚ
  max_gross : ℚ
  min_gross : ℚ
  min_names_each_side : ℕ
  max_weight_per_name : ℚ
  gross_bull : ℚ
  gross_mixed : ℚ
  gross_neutral : ℚ
  gross_bear : ℚ

/-- The concrete parameter values from `Initialize`. -/
def defaultConfig : Config where
  mom_lookback := 126
  vol_score_window := 60
  vol_target_window := 20
  regime_ma := 200
  target_annual_vol := 1/10
  max_gross := 13/10
  min_gross := 1/5
  min_names_each_side := 4
  max_weight_per_name := 3/25
  gross_bull := 11/10
  gross_mixed := 1
  gross_neutral := 4/5
  gross_bear := 9/10

/-- Reference symbol SOXX. -/
def soxxSym : Sym := 0

/-- Reference symbol SPY. -/
def spySym : Sym := 1

/-- Reference symbol IEF. -/
def iefSym : Sym := 2

/-- Reference symbol SHY. -/
def shySym : Sym := 3

/-- The fixed 16-name semiconductor basket (`self.semis`). -/
def semiSyms : List Sym := [10, 11, 12, 13, 14, 15, 16, 17, 18, 19, 20, 21, 22, 23, 24, 25]

/-- `np.clip(x, lo, hi)` = `min(max(x, lo), hi)`. -/
def clip (x lo hi : ℚ) : ℚ := min (max x lo) hi

/-- A pandas Series of scores indexed by symbol (unique index in context). -/
abbrev ScoreMap := List (Sym × ℚ)

/-- Output weight dictionary (Python `dict`, insertion ordered). -/
abbrev Targets := List (Sym × ℚ)

/-- Ascending comparison on the score component (pandas sort, ties stable). -/
def scoreAsc (a b : Sym × ℚ) : Prop := a.2 ≤ b.2

/-- Descending comparison on the score component (pandas sort, ties stable). -/
def scoreDesc (a b : Sym × ℚ) : Prop := b.2 ≤ a.2

instance : DecidableRel scoreAsc := fun a b => inferInstanceAs (Decidable (a.2 ≤ b.2))

instance : DecidableRel scoreDesc := fun a b => inferInstanceAs (Decidable (b.2 ≤ a.2))

instance : IsTotal (Sym × ℚ) scoreAsc := ⟨fun a b => le_total a.2 b.2⟩

instance : IsTrans (Sym × ℚ) scoreAsc := ⟨fun _ _ _ h1 h2 => le_trans h1 h2⟩

instance : IsTotal (Sym × ℚ) scoreDesc := ⟨fun a b => le_total b.2 a.2⟩

instance : IsTrans (Sym × ℚ) scoreDesc := ⟨fun _ _ _ h1 h2 => le_trans h2 h1⟩

/-- `Series.nlargest(k)`: the k largest entries, ties resolved by keeping the
first occurrence; equals taking k from a stable descending sort. -/
def nlargest (k : ℕ) (s : ScoreMap) : ScoreMap := (List.insertionSort scoreDesc s).take k

/-- `Series.nsmallest(k)`: the k smallest entries, ties resolved by keeping the
first occurrence; equals taking k from a stable ascending sort. -/
def nsmallest (k : ℕ) (s : ScoreMap) : ScoreMap := (List.insertionSort scoreAsc s).take k

/-- Python `key in dict`. -/
def hasKey (m : Targets) (s : Sym) : Bool := m.any (fun p => p.1 = s)

/-- Python `dict[s] = w`: replaces the value in place if the key exists,
otherwise appends at the end (insertion order). -/
def upsert (m : Targets) (s : Sym) (w : ℚ) : Targets :=
  if hasKey m s then m.map (fun p => if p.1 = s then (s, w) else p) else m ++ [(s, w)]

/-- The `for s in syms: target[s] = w` loops of `_build_targets`. -/
def assign (m : Targets) (syms : List Sym) (w : ℚ) : Targets :=
  syms.foldl (fun acc t => upsert acc t w) m

/-- Python `int(frac * n)` for `frac * n ≥ 0` (truncation = floor). -/
def truncMul (frac : ℚ) (n : ℕ) : ℕ := (frac * (n : ℚ)).floor.toNat

/-- Restriction of the score map to tradable symbols
(`score[[sym for sym in score.index if self._is_tradeable(sym)]]`). -/
def tradableScores (tradable : Sym → Bool) (score : ScoreMap) : ScoreMap :=
  score.filter (fun p => tradable p.1)

/-- Selection size `k = max(self.min_names_each_side, int(frac * n))` for the
two-sided regimes (frac = 0.30 for Mixed, 0.25 for Neutral). -/
def mixedK (cfg : Config) (n : ℕ) (frac : ℚ) : ℕ :=
  max cfg.min_names_each_side (truncMul frac n)

/-- `score.nlargest(k).index.tolist()` in the two-sided regimes. -/
def longNames (cfg : Config) (sc : ScoreMap) (frac : ℚ) : List Sym :=
  (nlargest (mixedK cfg sc.length frac) sc).map Prod.fst

/-- `score.nsmallest(k).index.tolist()` in the two-sided regimes. -/
def shortNames (cfg : Config) (sc : ScoreMap) (frac : ℚ) : List Sym :=
  (nsmallest (mixedK cfg sc.length frac) sc).map Prod.fst

/-- `lw = float(np.clip(long_g / len(longs), 0, self.max_weight_per_name))`
with `long_g = gross * 0.50`. -/
def mixedLW (cfg : Config) (sc : ScoreMap) (frac gross : ℚ) : ℚ :=
  clip (gross * (1/2) / ((longNames cfg sc frac).length : ℚ)) 0 cfg.max_weight_per_name

/-- `sw = float(np.clip(-short_g / len(shorts), -self.max_weight_per_name, 0))`
with `short_g = gross * 0.50`. -/
def mixedSW (cfg : Config) (sc : ScoreMap) (frac gross : ℚ) : ℚ :=
  clip (-(gross * (1/2)) / ((shortNames cfg sc frac).length : ℚ)) (-cfg.max_weight_per_name) 0

/-- The shared body of the `regime == 2` and `regime == 1` branches of
`_build_targets` (identical code, different selection fraction). -/
def mixedTargets (cfg : Config) (sc : ScoreMap) (frac gross : ℚ) : Targets :=
  assign (assign [] (longNames cfg sc frac) (mixedLW cfg sc frac gross))
    (shortNames cfg sc frac) (mixedSW cfg sc frac gross)

/-- `k = max(self.min_names_each_side, int(0.40 * n))` in the Bull branch. -/
def bullK (cfg : Config) (n : ℕ) : ℕ := max cfg.min_names_each_side (truncMul (2/5) n)

/-- `score.nlargest(k).index.tolist()` in the Bull branch. -/
def bullLongs (cfg : Config) (sc : ScoreMap) : List Sym :=
  (nlargest (bullK cfg sc.length) sc).map Prod.fst

/-- `w = float(np.clip(gross / len(longs), 0, self.max_weight_per_name))`. -/
def bullW (cfg : Config) (sc : ScoreMap) (gross : ℚ) : ℚ :=
  clip (gross / ((bullLongs cfg sc).length : ℚ)) 0 cfg.max_weight_per_name

/-- `k = max(self.min_names_each_side, int(0.50 * n))` in the Bear branch. -/
def bearK (cfg : Config) (n : ℕ) : ℕ := max cfg.min_names_each_side (truncMul (1/2) n)

/-- `score.nsmallest(k).index.tolist()` in the Bear branch. -/
def bearShorts (cfg : Config) (sc : ScoreMap) : List Sym :=
  (nsmallest (bearK cfg sc.length) sc).map Prod.fst

/-- `sw = float(np.clip(-gross / len(shorts), -self.max_weight_per_name, 0))`. -/
def bearW (cfg : Config) (sc : ScoreMap) (gross : ℚ) : ℚ :=
  clip (-gross / ((bearShorts cfg sc).length : ℚ)) (-cfg.max_weight_per_name) 0

/-- `_build_targets(self, score, regime, gross)` (src/strategy.py 157-229).
The regime ladder is `if regime == 3 / elif 2 / elif 1 / else`, so every
integer other than 3, 2, 1 falls into the Bear branch. -/
def buildTargets (cfg : Config) (tradable : Sym → Bool) (score : ScoreMap)
    (regime : ℤ) (gross : ℚ) : Targets :=
  if score.length < 2 * cfg.min_names_each_side then []
  else
    let sc := tradableScores tradable score
    if sc.length < 2 * cfg.min_names_each_side then []
    else if regime = 3 then assign [] (bullLongs cfg sc) (bullW cfg sc gross)
    else if regime = 2 then mixedTargets cfg sc (3/10) gross
    else if regime = 1 then mixedTargets cfg sc (1/4) gross
    else assign [] (bearShorts cfg sc) (bearW cfg sc gross)

/-- Sum of the positive parts of the produced weights (long-side gross). -/
def posSum (m : Targets) : ℚ := (m.map (fun p => max p.2 0)).sum

/-- Sum of the negative parts of the produced weights (short-side gross). -/
def negSum (m : Targets) : ℚ := (m.map (fun p => min p.2 0)).sum

/-- The reshaped close-price table (`hist["close"].unstack(...)`): columns of
`Option ℚ` values, `none` standing for a NaN cell. -/
abbrev CloseTable := List (Sym × List (Option ℚ))

/-- Python `sym in close.columns`. -/
def hasCol (t : CloseTable) (s : Sym) : Bool := t.any (fun p => p.1 = s)

/-- Python `close[sym]` (total in the model; the classifier and the
orchestrator only use it on columns whose presence was checked). -/
def colOf (t : CloseTable) (s : Sym) : List (Option ℚ) :=
  match t.find? (fun p => p.1 = s) with
  | some p => p.2
  | none => []

/-- NaN-respecting strict comparison: any comparison against NaN is False. -/
def ogt (a b : Option ℚ) : Bool :=
  match a, b with
  | some x, some y => decide (y < x)
  | _, _ => false

/-- `series.rolling(w).mean().iloc[-1]` on an `Option`-valued column: NaN
(`none`) when fewer than `w` rows exist or the trailing window contains a
NaN, otherwise the mean of the last `w` values. -/
def rollingMeanLast (w : ℕ) (xs : List (Option ℚ)) : Option ℚ :=
  if xs.length < w then none
  else
    let win := xs.drop (xs.length - w)
    if win.all Option.isSome then some ((win.filterMap id).sum / (w : ℚ)) else none

/-- `(a / b).replace([np.inf, -np.inf], np.nan).dropna()`: elementwise ratio
keeping only the finite observations (drops NaN operands and zero divisors). -/
def safeRatio (a b : List (Option ℚ)) : List ℚ :=
  (a.zip b).filterMap (fun p =>
    match p with
    | (some x, some y) => if y = 0 then none else some (x / y)
    | _ => none)

/-- Mean of the trailing `w` entries of an all-finite series
(`rs.rolling(w).mean().iloc[-1]` when `len(rs) > w`). -/
def trailingMean (w : ℕ) (xs : List ℚ) : ℚ := ((xs.drop (xs.length - w)).sum) / (w : ℚ)

/-- Indicator 1 of `_compute_regime_score`: latest SOXX close above its
`regime_ma`-day moving average (NaN comparisons yield 0). -/
def regimeC1 (cfg : Config) (t : CloseTable) : ℤ :=
  match (colOf t soxxSym).getLast? with
  | none => 0
  | some lastv => if ogt lastv (rollingMeanLast cfg.regime_ma (colOf t soxxSym)) then 1 else 0

/-- Indicator 2: latest SOXX/SPY ratio above its moving average; the moving
average is only computed when `len(rs) > regime_ma`, otherwise 0. -/
def regimeC2 (cfg : Config) (t : CloseTable) : ℤ :=
  let rs := safeRatio (colOf t soxxSym) (colOf t spySym)
  if cfg.regime_ma < rs.length then
    match rs.getLast? with
    | some lastv => if trailingMean cfg.regime_ma rs < lastv then 1 else 0
    | none => 0
  else 0

/-- Indicator 3: latest IEF/SHY ratio above its moving average; same guard as
indicator 2. -/
def regimeC3 (cfg : Config) (t : CloseTable) : ℤ :=
  let curve := safeRatio (colOf t iefSym) (colOf t shySym)
  if cfg.regime_ma < curve.length then
    match curve.getLast? with
    | some lastv => if trailingMean cfg.regime_ma curve < lastv then 1 else 0
    | none => 0
  else 0

/-- The missing-reference-column test of `_compute_regime_score`
(`any(sym not in close.columns for sym in needed)`). -/
def regimeMissing (t : CloseTable) : Bool :=
  [soxxSym, spySym, iefSym, shySym].any (fun s => ¬ hasCol t s)

/-- `_compute_regime_score(self, close)` (src/strategy.py 104-131).  Returns
`none` for the one input on which the Python code raises: a present but
row-less SOXX column makes `iloc[-1]` fail.  Otherwise the score is the sum
of the three indicators; with any reference column absent it is the fixed 1. -/
def computeRegimeScore (cfg : Config) (t : CloseTable) : Option ℤ :=
  if regimeMissing t then some 1
  else
    match (colOf t soxxSym).getLast? with
    | none => none
    | some _ => some (regimeC1 cfg t + regimeC2 cfg t + regimeC3 cfg t)

/-- `series.pct_change()`: first entry NaN, then `(x[i] - x[i-1]) / x[i-1]`;
NaN operands and zero denominators yield a non-finite entry (`none`). -/
def pctChange (xs : List (Option ℚ)) : List (Option ℚ) :=
  (List.range xs.length).map (fun i =>
    if i = 0 then none
    else
      match xs.get? (i - 1), xs.get? i with
      | some (some a), some (some b) => if a = 0 then none else some ((b - a) / a)
      | _, _ => none)

/-- Sample variance with ddof = 1 (what pandas `std` squares). -/
def sampleVar (l : List ℚ) : ℚ :=
  let n : ℚ := l.length
  let mu := l.sum / n
  (l.map (fun x => (x - mu) ^ 2)).sum / (n - 1)

/-- `series.rolling(w).std().iloc[-1]`: NaN when fewer than `w` rows exist or
the trailing window contains a non-finite entry, else the sample standard
deviation of the last `w` values (`sq` is the square root). -/
def rollingStdLast (sq : ℚ → ℚ) (w : ℕ) (xs : List (Option ℚ)) : Option ℚ :=
  if xs.length < w then none
  else
    let win := xs.drop (xs.length - w)
    if win.all Option.isSome then some (sq (sampleVar (win.filterMap id))) else none

/-- `_vol_target_scale(self, soxx_close)` (src/strategy.py 133-140).  `none`
models the `iloc[-1]` failure on an empty series; the NaN / below-1e-8
degenerate branch returns the neutral 1.0; otherwise the annualized
volatility is floored at 1e-3 and the scale clipped to
`[min_gross, max_gross]`. -/
def volTargetScale (sq : ℚ → ℚ) (cfg : Config) (closes : List (Option ℚ)) : Option ℚ :=
  if closes.isEmpty then none
  else
    match rollingStdLast sq cfg.vol_target_window (pctChange closes) with
    | none => some 1
    | some vol =>
      if vol < 1/100000000 then some 1
      else
        let ann := vol * sq 252
        let scale := cfg.target_annual_vol / max ann (1/1000)
        some (clip scale cfg.min_gross cfg.max_gross)

/-- `eq_close.pct_change(L).iloc[-1]` for one column: NaN unless the column
has more than `L` rows and both endpoints are finite with nonzero base. -/
def momLast (lookback : ℕ) (xs : List (Option ℚ)) : Option ℚ :=
  if lookback < xs.length then
    match xs.get? (xs.length - 1 - lookback), xs.getLast? with
    | some (some a), some (some b) => if a = 0 then none else some ((b - a) / a)
    | _, _ => none
  else none

/-- `_zscore(self, x)` applied to a cross-sectional vector: pandas `mean` and
`std` skip NaN, `std` is NaN below two finite observations; a degenerate
standard deviation turns the vector into `x * 0.0` (NaN entries stay NaN). -/
def zscoreVec (sq : ℚ → ℚ) (xs : List (Option ℚ)) : List (Option ℚ) :=
  let fin := xs.filterMap id
  let sdOpt : Option ℚ := if fin.length ≤ 1 then none else some (sq (sampleVar fin))
  match sdOpt with
  | none => xs.map (Option.map (fun _ => (0 : ℚ)))
  | some sd =>
    if sd < 1/1000000000000 then xs.map (Option.map (fun _ => (0 : ℚ)))
    else
      let mu := fin.sum / (fin.length : ℚ)
      xs.map (Option.map (fun v => (v - mu) / sd))

/-- `_alpha_scores(self, eq_close)` (src/strategy.py 142-155): cross-sectional
z-scores of momentum and realized volatility, composite
`mom_z - 0.5 * vol_z`, non-finite composites dropped from the output. -/
def alphaScores (sq : ℚ → ℚ) (cfg : Config) (eqClose : List (Sym × List (Option ℚ))) : ScoreMap :=
  let moms := eqClose.map (fun p => momLast cfg.mom_lookback p.2)
  let vols := eqClose.map (fun p => rollingStdLast sq cfg.vol_score_window (pctChange p.2))
  let momZ := zscoreVec sq moms
  let volZ := zscoreVec sq vols
  let score := List.zipWith (fun a b =>
    match a, b with
    | some x, some y => some (x - 1/2 * y)
    | _, _ => none) momZ volZ
  (List.zip (eqClose.map Prod.fst) score).filterMap (fun p =>
    match p.2 with
    | some v => some (p.1, v)
    | none => none)

/-- The regime-preset ladder of `Rebalance` (src/strategy.py 258-265). -/
def baseGross (cfg : Config) (regime : ℤ) : ℚ :=
  if regime = 3 then cfg.gross_bull
  else if regime = 2 then cfg.gross_mixed
  else if regime = 1 then cfg.gross_neutral
  else cfg.gross_bear

/-- `gross = float(np.clip(base_gross * gross_scale, 0.0, self.max_gross))`
(src/strategy.py line 267). -/
def computeGross (cfg : Config) (regime : ℤ) (scale : ℚ) : ℚ :=
  clip (baseGross cfg regime * scale) 0 cfg.max_gross

/-- Result of `self.History(...)` plus the reshape of line 250: empty frame,
reshape exception, or a usable close table. -/
inductive HistResult where
  | empty : HistResult
  | reshapeFailed : HistResult
  | ok (close : CloseTable) : HistResult

/-- Cross-cycle algorithm state: the `_last_rebalance_date` guard, the
brokerage portfolio, and the emitted log records (coded as naturals). -/
structure AlgoState where
  lastRebalanceDate : Option ℕ
  portfolio : List (Sym × ℚ)
  logs : List ℕ

/-- One rebalance cycle outcome: the updated state and the computed target
weight dictionary (`none` when the cycle aborted before building one). -/
structure RebalanceOutput where
  state : AlgoState
  targets : Option Targets

/-- `Rebalance(self)` (src/strategy.py 233-282) as a state transition.  The
guard is written before the history fetch; empty history and reshape failure
abort with a log record; otherwise regime, volatility scale, gross, scores
and targets are computed, non-target holdings liquidated and target weights
applied to tradable symbols.  A `none` from the regime or volatility stage
models the uncaught Python exception on a missing or empty SOXX column. -/
def rebalanceStep (sq : ℚ → ℚ) (cfg : Config) (tradable : Sym → Bool)
    (warmingUp : Bool) (today : ℕ) (hist : HistResult) (s : AlgoState) : RebalanceOutput :=
  if warmingUp then ⟨s, none⟩
  else if s.lastRebalanceDate = some today then ⟨s, none⟩
  else
    let s1 : AlgoState := { s with lastRebalanceDate := some today }
    match hist with
    | .empty => ⟨{ s1 with logs := s1.logs ++ [0] }, none⟩
    | .reshapeFailed => ⟨{ s1 with logs := s1.logs ++ [1] }, none⟩
    | .ok close =>
      match computeRegimeScore cfg close with
      | none => ⟨s1, none⟩
      | some regime =>
        match volTargetScale sq cfg (colOf close soxxSym) with
        | none => ⟨s1, none⟩
        | some gscale =>
          let gross := computeGross cfg regime gscale
          let eqClose := semiSyms.filterMap (fun s' =>
            if hasCol close s' then some (s', colOf close s') else none)
          let score := alphaScores sq cfg eqClose
          let target := buildTargets cfg tradable score regime gross
          let targetSyms := target.map Prod.fst
          let afterLiq := s1.portfolio.filter (fun p =>
            decide (p.2 = 0) || targetSyms.contains p.1)
          let afterSet := target.foldl (fun acc pw =>
            if tradable pw.1 then upsert acc pw.1 pw.2 else acc) afterLiq
          ⟨{ s1 with portfolio := afterSet, logs := s1.logs ++ [2] }, some target⟩

/-- A concrete 8-instrument score map with all composite scores tied. -/
def tieScores : ScoreMap := [(0, 7), (1, 7), (2, 7), (3, 7), (4, 7), (5, 7), (6, 7), (7, 7)]

/-- A concrete 8-instrument score map with strictly increasing scores. -/
def octoScores : ScoreMap := [(0, 1), (1, 2), (2, 3), (3, 4), (4, 5), (5, 6), (6, 7), (7, 8)]

/-! Basic facts about `clip`. -/

lemma clip_le_hi (x lo hi : ℚ) : clip x lo hi ≤ hi := min_le_right _ _

lemma lo_le_clip (x lo hi : ℚ) (h : lo ≤ hi) : lo ≤ clip x lo hi :=
  le_min (le_max_right _ _) h

lemma clip_le_of_nonneg (x hi : ℚ) (hx : 0 ≤ x) : clip x 0 hi ≤ x := by
  unfold clip
  rw [max_eq_left hx]
  exact min_le_left _ _

lemma le_clip_of_nonpos (x lo : ℚ) (hx : x ≤ 0) : x ≤ clip x lo 0 :=
  le_min (le_max_left _ _) hx

/-! Facts about the dictionary model (`upsert` / `assign`). -/

lemma mem_upsert {m : Targets} {s : Sym} {w : ℚ} {p : Sym × ℚ}
    (h : p ∈ upsert m s w) : p = (s, w) ∨ p ∈ m := by
  unfold upsert at h
  split at h
  · obtain ⟨q, hq, hfq⟩ := List.mem_map.mp h
    by_cases hqs : q.1 = s
    · left
      rw [← hfq, if_pos hqs]
    · right
      rw [← hfq, if_neg hqs]
      exact hq
  · rcases List.mem_append.mp h with h1 | h1
    · right; exact h1
    · left; simpa using h1

lemma assign_cons (m : Targets) (t : Sym) (ts : List Sym) (w : ℚ) :
    assign m (t :: ts) w = assign (upsert m t w) ts w := rfl

lemma mem_assign {m : Targets} {syms : List Sym} {w : ℚ} {p : Sym × ℚ}
    (h : p ∈ assign m syms w) : p.2 = w ∨ p ∈ m := by
  induction syms generalizing m with
  | nil => right; exact h
  | cons t ts ih =>
    rw [assign_cons] at h
    rcases ih h with h1 | h1
    · left; exact h1
    · rcases mem_upsert h1 with h2 | h2
      · left; rw [h2]
      · right; exact h2

lemma hasKey_eq_mem_keys (m : Targets) (s : Sym) :
    hasKey m s = true ↔ s ∈ m.map Prod.fst := by
  unfold hasKey
  simp only [List.any_eq_true, decide_eq_true_eq, List.mem_map]

lemma keys_upsert (m : Targets) (s : Sym) (w : ℚ) :
    (upsert m s w).map Prod.fst =
      if hasKey m s then m.map Prod.fst else m.map Prod.fst ++ [s] := by
  unfold upsert
  by_cases h : hasKey m s
  · rw [if_pos h, if_pos h, List.map_map]
    refine List.map_congr_left (fun p _ => ?_)
    by_cases hp : p.1 = s
    · simp [hp]
    · simp [hp]
  · rw [if_neg h, if_neg h]
    simp

lemma keysNodup_upsert {m : Targets} (s : Sym) (w : ℚ)
    (h : (m.map Prod.fst).Nodup) : ((upsert m s w).map Prod.fst).Nodup := by
  rw [keys_upsert]
  by_cases hk : hasKey m s
  · rw [if_pos hk]; exact h
  · rw [if_neg hk]
    refine List.Nodup.append h (List.nodup_singleton s) ?_
    intro a ha hb
    rw [List.mem_singleton] at hb
    rw [hb] at ha
    exact hk ((hasKey_eq_mem_keys m s).mpr ha)

/-! Sums of positive and negative parts under assignment. -/

lemma posSum_upsert_le {m : Targets} {s : Sym} {w : ℚ} (hw : w ≤ 0) :
    posSum (upsert m s w) ≤ posSum m := by
  unfold posSum upsert
  by_cases h : hasKey m s
  · rw [if_pos h, List.map_map]
    refine List.sum_le_sum (fun p _ => ?_)
    by_cases hp : p.1 = s
    · simp only [Function.comp_apply, hp, if_pos]
      exact max_le (hw.trans (le_max_right _ _)) (le_max_right _ _)
    · simp [hp]
  · rw [if_neg h]
    simp [max_eq_right hw]

lemma posSum_assign_le {m : Targets} {syms : List Sym} {w : ℚ} (hw : w ≤ 0) :
    posSum (assign m syms w) ≤ posSum m := by
  induction syms generalizing m with
  | nil => exact le_refl _
  | cons t ts ih =>
    rw [assign_cons]
    exact le_trans (ih (m := upsert m t w)) (posSum_upsert_le hw)

lemma negSum_upsert_ge {m : Targets} {s : Sym} {w : ℚ}
    (hnd : (m.map Prod.fst).Nodup) (hw : w ≤ 0) :
    negSum m + w ≤ negSum (upsert m s w) := by
  unfold negSum upsert
  by_cases hk : hasKey m s
  · rw [if_pos hk]
    rw [hasKey_eq_mem_keys] at hk
    induction m with
    | nil => simp at hk
    | cons p m' ihm =>
      by_cases hp : p.1 = s
      · have hhead : p.1 ∉ m'.map Prod.fst := by
          rw [List.map_cons, List.nodup_cons] at hnd
          exact hnd.1
        have hnotin : ∀ q ∈ m', q.1 ≠ s := by
          intro q hq hqs
          refine hhead ?_
          rw [hp, ← hqs]
          exact List.mem_map.mpr ⟨q, hq, rfl⟩
        have hmap : m'.map (fun q => if q.1 = s then (s, w) else q) = m'.map id :=
          List.map_congr_left (fun q hq => by rw [if_neg (hnotin q hq)]; rfl)
        rw [List.map_id] at hmap
        simp only [List.map_cons, if_pos hp, hmap, List.sum_cons]
        have h1 : w ≤ min w 0 := le_min (le_refl w) hw
        have h2 : min p.2 0 ≤ 0 := min_le_right _ _
        linarith
      · have hk' : s ∈ m'.map Prod.fst := by
          rcases List.mem_map.mp hk with ⟨q, hq, hqs⟩
          rcases List.mem_cons.mp hq with hq1 | hq1
          · exact absurd (hq1 ▸ hqs) hp
          · exact List.mem_map.mpr ⟨q, hq1, hqs⟩
        have hnd' : (m'.map Prod.fst).Nodup := (List.nodup_cons.mp hnd).2
        have := ihm hnd' hk'
        simp only [List.map_cons, if_neg hp, List.sum_cons]
        linarith
  · rw [if_neg hk]
    simp [min_eq_left hw]

lemma negSum_assign_ge {m : Targets} {syms : List Sym} {w : ℚ}
    (hnd : (m.map Prod.fst).Nodup) (hw : w ≤ 0) :
    negSum m + syms.length * w ≤ negSum (assign m syms w) := by
  induction syms generalizing m with
  | nil => simp [assign]
  | cons t ts ih =>
    rw [assign_cons]
    have h1 := negSum_upsert_ge (s := t) hnd hw
    have h2 := ih (m := upsert m t w) (keysNodup_upsert t w hnd)
    simp only [List.length_cons]
    push_cast
    linarith

/-! Lengths and key-nodup facts for the selections. -/

lemma length_nlargest (k : ℕ) (s : ScoreMap) : (nlargest k s).length = min k s.length := by
  unfold nlargest
  rw [List.length_take, (List.perm_insertionSort scoreDesc s).length_eq]

lemma length_nsmallest (k : ℕ) (s : ScoreMap) : (nsmallest k s).length = min k s.length := by
  unfold nsmallest
  rw [List.length_take, (List.perm_insertionSort scoreAsc s).length_eq]

lemma truncMul_eq_floor (frac : ℚ) (n : ℕ) : truncMul frac n = ⌊frac * (n : ℚ)⌋.toNat := rfl

lemma truncMul_le (frac : ℚ) (n : ℕ) (h0 : 0 ≤ frac) (h1 : frac ≤ 1) :
    truncMul frac n ≤ n := by
  unfold truncMul
  have hle : frac * (n : ℚ) ≤ (n : ℚ) :=
    mul_le_of_le_one_left (by positivity) h1
  have hfl : (frac * (n : ℚ)).floor ≤ (n : ℤ) := by
    have := Int.floor_le_floor hle
    rwa [Int.floor_natCast] at this
  exact Int.toNat_le.mpr hfl

lemma mixedK_le (cfg : Config) (n : ℕ) (frac : ℚ)
    (hn : 2 * cfg.min_names_each_side ≤ n) (h0 : 0 ≤ frac) (h1 : frac ≤ 1) :
    mixedK cfg n frac ≤ n := by
  unfold mixedK
  exact max_le (by omega) (truncMul_le frac n h0 h1)

lemma nodup_keys_nlargest (k : ℕ) (s : ScoreMap) (h : (s.map Prod.fst).Nodup) :
    ((nlargest k s).map Prod.fst).Nodup := by
  unfold nlargest
  rw [List.map_take]
  have hperm : List.Perm ((List.insertionSort scoreDesc s).map Prod.fst) (s.map Prod.fst) :=
    (List.perm_insertionSort scoreDesc s).map Prod.fst
  exact (List.take_sublist _ _).nodup (hperm.nodup_iff.mpr h)

lemma nodup_keys_nsmallest (k : ℕ) (s : ScoreMap) (h : (s.map Prod.fst).Nodup) :
    ((nsmallest k s).map Prod.fst).Nodup := by
  unfold nsmallest
  rw [List.map_take]
  have hperm : List.Perm ((List.insertionSort scoreAsc s).map Prod.fst) (s.map Prod.fst) :=
    (List.perm_insertionSort scoreAsc s).map Prod.fst
  exact (List.take_sublist _ _).nodup (hperm.nodup_iff.mpr h)

/-! Membership facts about the produced weights. -/

lemma abs_clip_pos_le (x cap : ℚ) (hcap : 0 ≤ cap) : |clip x 0 cap| ≤ cap := by
  rw [abs_le]
  refine ⟨?_, clip_le_hi _ _ _⟩
  have := lo_le_clip x 0 cap hcap
  linarith

lemma abs_clip_neg_le (x cap : ℚ) (hcap : 0 ≤ cap) : |clip x (-cap) 0| ≤ cap := by
  rw [abs_le]
  refine ⟨lo_le_clip x (-cap) 0 (by linarith), ?_⟩
  have := clip_le_hi x (-cap) 0
  linarith

lemma mem_mixedTargets_val {cfg : Config} {sc : ScoreMap} {frac gross : ℚ} {p : Sym × ℚ}
    (hp : p ∈ mixedTargets cfg sc frac gross) :
    p.2 = mixedLW cfg sc frac gross ∨ p.2 = mixedSW cfg sc frac gross := by
  unfold mixedTargets at hp
  rcases mem_assign hp with h | h
  · right; exact h
  · rcases mem_assign h with h2 | h2
    · left; exact h2
    · simp at h2

lemma mem_buildTargets_val {cfg : Config} {tradable : Sym → Bool} {score : ScoreMap}
    {regime : ℤ} {gross : ℚ} {p : Sym × ℚ}
    (hp : p ∈ buildTargets cfg tradable score regime gross)
    (hcap : 0 ≤ cfg.max_weight_per_name) : |p.2| ≤ cfg.max_weight_per_name := by
  simp only [buildTargets] at hp
  split at hp
  · simp at hp
  · split at hp
    · simp at hp
    · split at hp
      · rcases mem_assign hp with h | h
        · rw [h]
          exact abs_clip_pos_le _ _ hcap
        · simp at h
      · split at hp
        · rcases mem_mixedTargets_val hp with h | h <;> rw [h]
          · exact abs_clip_pos_le _ _ hcap
          · exact abs_clip_neg_le _ _ hcap
        · split at hp
          · rcases mem_mixedTargets_val hp with h | h <;> rw [h]
            · exact abs_clip_pos_le _ _ hcap
            · exact abs_clip_neg_le _ _ hcap
          · rcases mem_assign hp with h | h
            · rw [h]
              exact abs_clip_neg_le _ _ hcap
            · simp at h

/-! Structure of `assign` under distinct keys. -/

lemma assign_append_of_not_hasKey (m : Targets) (syms : List Sym) (w : ℚ)
    (hnd : syms.Nodup) (hm : ∀ t ∈ syms, hasKey m t = false) :
    assign m syms w = m ++ syms.map (fun s => (s, w)) := by
  induction syms generalizing m with
  | nil => simp [assign]
  | cons t ts ih =>
    rw [assign_cons]
    have ht : hasKey m t = false := hm t (List.mem_cons_self t ts)
    have hup : upsert m t w = m ++ [(t, w)] := by
      unfold upsert
      rw [ht]
      simp
    rw [hup, ih (m ++ [(t, w)]) (List.nodup_cons.mp hnd).2]
    · simp
    · intro u hu
      have hne : u ≠ t := by
        intro e
        exact (List.nodup_cons.mp hnd).1 (e ▸ hu)
      have hmu : hasKey m u = false := hm u (List.mem_cons_of_mem t hu)
      unfold hasKey at hmu ⊢
      rw [List.any_append, hmu]
      simp [hne.symm]

lemma assign_nil_eq (syms : List Sym) (w : ℚ) (hnd : syms.Nodup) :
    assign [] syms w = syms.map (fun s => (s, w)) := by
  have := assign_append_of_not_hasKey [] syms w hnd (fun t _ => rfl)
  simpa using this

lemma length_upsert (m : Targets) (t : Sym) (w : ℚ) :
    (upsert m t w).length = if hasKey m t then m.length else m.length + 1 := by
  unfold upsert
  by_cases h : hasKey m t
  · rw [if_pos h, if_pos h, List.length_map]
  · rw [if_neg h, if_neg h, List.length_append]
    rfl

lemma hasKey_upsert_ne (m : Targets) (t u : Sym) (w : ℚ) (hne : u ≠ t) :
    hasKey (upsert m t w) u = hasKey m u := by
  unfold upsert
  by_cases h : hasKey m t
  · rw [if_pos h]
    unfold hasKey
    rw [List.any_map]
    refine congrArg _ (funext fun p => ?_)
    by_cases hp : p.1 = t
    · simp [hp, Ne.symm hne, hne]
    · simp [hp]
  · rw [if_neg h]
    unfold hasKey
    rw [List.any_append]
    simp [Ne.symm hne]

lemma length_assign (m : Targets) (syms : List Sym) (w : ℚ) (hnd : syms.Nodup) :
    (assign m syms w).length = m.length + (syms.filter (fun t => ! hasKey m t)).length := by
  induction syms generalizing m with
  | nil => simp [assign]
  | cons t ts ih =>
    rw [assign_cons, ih (upsert m t w) (List.nodup_cons.mp hnd).2]
    have hcongr : ts.filter (fun u => ! hasKey (upsert m t w) u)
        = ts.filter (fun u => ! hasKey m u) := by
      refine List.filter_congr (fun u hu => ?_)
      have hne : u ≠ t := by
        intro e
        exact (List.nodup_cons.mp hnd).1 (e ▸ hu)
      rw [hasKey_upsert_ne m t u w hne]
    rw [hcongr, length_upsert, List.filter_cons]
    by_cases h : hasKey m t
    · rw [if_pos h]
      simp [h]
    · rw [if_neg h]
      simp [h]
      omega

lemma mem_upsert_self (m : Targets) (t : Sym) (w : ℚ) : (t, w) ∈ upsert m t w := by
  unfold upsert
  by_cases h : hasKey m t
  · rw [if_pos h]
    rw [hasKey_eq_mem_keys] at h
    rcases List.mem_map.mp h with ⟨q, hq, hqt⟩
    refine List.mem_map.mpr ⟨q, hq, ?_⟩
    rw [if_pos hqt]
  · rw [if_neg h]
    simp

lemma mem_upsert_of_mem {m : Targets} {p : Sym × ℚ} (hp : p ∈ m) (u : Sym) (w : ℚ)
    (hne : p.1 ≠ u) : p ∈ upsert m u w := by
  unfold upsert
  by_cases h : hasKey m u
  · rw [if_pos h]
    refine List.mem_map.mpr ⟨p, hp, ?_⟩
    rw [if_neg hne]
  · rw [if_neg h]
    exact List.mem_append_left _ hp

lemma mem_assign_of_not_mem {m : Targets} {p : Sym × ℚ} (hp : p ∈ m)
    {syms : List Sym} (hns : p.1 ∉ syms) (w : ℚ) : p ∈ assign m syms w := by
  induction syms generalizing m with
  | nil => exact hp
  | cons u us ih =>
    rw [assign_cons]
    refine ih (mem_upsert_of_mem hp u w ?_) ?_
    · intro e
      exact hns (e ▸ List.mem_cons_self u us)
    · intro h
      exact hns (List.mem_cons_of_mem u h)

lemma mem_assign_self {syms : List Sym} (hnd : syms.Nodup) {t : Sym} (ht : t ∈ syms)
    (m : Targets) (w : ℚ) : (t, w) ∈ assign m syms w := by
  induction syms generalizing m with
  | nil => simp at ht
  | cons u us ih =>
    rw [assign_cons]
    rcases List.mem_cons.mp ht with h | h
    · subst h
      exact mem_assign_of_not_mem (mem_upsert_self m t w) (List.nodup_cons.mp hnd).1 w
    · exact ih (List.nodup_cons.mp hnd).2 h (upsert m u w)

lemma upsert_key_val (m : Targets) (t : Sym) (w : ℚ) :
    ∀ p ∈ upsert m t w, p.1 = t → p.2 = w := by
  intro p hp hpt
  unfold upsert at hp
  split at hp
  · rcases List.mem_map.mp hp with ⟨q, hq, hfq⟩
    by_cases hqt : q.1 = t
    · rw [← hfq, if_pos hqt]
    · exfalso
      apply hqt
      rw [← hfq, if_neg hqt] at hpt
      exact hpt
  · rcases List.mem_append.mp hp with h | h
    · exfalso
      rename_i hkey
      refine hkey ((hasKey_eq_mem_keys m t).mpr ?_)
      exact List.mem_map.mpr ⟨p, h, hpt⟩
    · rw [List.mem_singleton] at h
      rw [h]

lemma upsert_key_val_preserve {m : Targets} {t : Sym} {w : ℚ}
    (hinv : ∀ p ∈ m, p.1 = t → p.2 = w) (u : Sym) :
    ∀ p ∈ upsert m u w, p.1 = t → p.2 = w := by
  intro p hp hpt
  rcases mem_upsert hp with h | h
  · rw [h]
  · exact hinv p h hpt

lemma assign_key_val_preserve {m : Targets} {t : Sym} {w : ℚ}
    (hinv : ∀ p ∈ m, p.1 = t → p.2 = w) (syms : List Sym) :
    ∀ p ∈ assign m syms w, p.1 = t → p.2 = w := by
  induction syms generalizing m with
  | nil => exact hinv
  | cons u us ih =>
    rw [assign_cons]
    exact ih (upsert_key_val_preserve hinv u)

lemma assign_key_val {syms : List Sym} {t : Sym} (ht : t ∈ syms) (m : Targets) (w : ℚ) :
    ∀ p ∈ assign m syms w, p.1 = t → p.2 = w := by
  induction syms generalizing m with
  | nil => simp at ht
  | cons u us ih =>
    rw [assign_cons]
    rcases List.mem_cons.mp ht with h | h
    · subst h
      exact assign_key_val_preserve (upsert_key_val m t w) us
    · exact ih h (upsert m u w)

/-! Selected scores are extremal among the filtered universe. -/

lemma nsmallest_le_unselected (k : ℕ) (s : ScoreMap)
    {p : Sym × ℚ} (hp : p ∈ nsmallest k s) {q : Sym × ℚ} (hq : q ∈ s)
    (hqn : q.1 ∉ (nsmallest k s).map Prod.fst) : p.2 ≤ q.2 := by
  have hsorted : List.Pairwise scoreAsc (List.insertionSort scoreAsc s) :=
    List.sorted_insertionSort scoreAsc s
  have hq' : q ∈ List.insertionSort scoreAsc s :=
    (List.perm_insertionSort scoreAsc s).mem_iff.mpr hq
  rw [← List.take_append_drop k (List.insertionSort scoreAsc s)] at hq' hsorted
  rcases List.mem_append.mp hq' with hq1 | hq1
  · exact absurd (List.mem_map.mpr ⟨q, hq1, rfl⟩) hqn
  · exact (List.pairwise_append.mp hsorted).2.2 p hp q hq1

/-! Sums over constant-weight maps. -/

lemma posSum_map_const (syms : List Sym) (w : ℚ) :
    posSum (syms.map (fun s => (s, w))) = syms.length * max w 0 := by
  unfold posSum
  rw [List.map_map]
  rw [show ((fun p : Sym × ℚ => max p.2 0) ∘ fun s => (s, w)) = fun _ => max w 0 from rfl]
  rw [List.map_const', List.sum_replicate, nsmul_eq_mul]

lemma negSum_map_const (syms : List Sym) (w : ℚ) :
    negSum (syms.map (fun s => (s, w))) = syms.length * min w 0 := by
  unfold negSum
  rw [List.map_map]
  rw [show ((fun p : Sym × ℚ => min p.2 0) ∘ fun s => (s, w)) = fun _ => min w 0 from rfl]
  rw [List.map_const', List.sum_replicate, nsmul_eq_mul]

/-- C1 counterexample: with the configured presets, regime 1 (Neutral, preset
0.80) and a volatility scale of 0.20 — which lies in [min_gross, max_gross] —
the clipped gross is 0.16, strictly below min_gross: line 267 clips to
`[0.0, max_gross]`, not to `[min_gross, max_gross]`. -/
theorem claim1_counterexample :
    defaultConfig.min_gross ≤ 1/5 ∧ (1/5 : ℚ) ≤ defaultConfig.max_gross ∧
      computeGross defaultConfig 1 (1/5) < defaultConfig.min_gross := by
  refine ⟨by norm_num [defaultConfig], by norm_num [defaultConfig], ?_⟩
  show clip (baseGross defaultConfig 1 * (1/5)) 0 defaultConfig.max_gross < _
  norm_num [defaultConfig, baseGross, clip]

/-- C1 (amended): the gross budget computed each cycle as regime preset times
volatility scale and then clipped always lies in [0, max_gross]; for every
regime label and every volatility-scale value in [min_gross, max_gross] it is
at most max_gross and at least 0 (but not necessarily at least min_gross). -/
theorem claim1_gross_in_zero_max (regime : ℤ) (scale : ℚ)
    (h1 : defaultConfig.min_gross ≤ scale) (h2 : scale ≤ defaultConfig.max_gross) :
    0 ≤ computeGross defaultConfig regime scale ∧
      computeGross defaultConfig regime scale ≤ defaultConfig.max_gross :=
  ⟨lo_le_clip _ _ _ (by norm_num [defaultConfig]), clip_le_hi _ _ _⟩

/-- Witness for C1 at regime 3 and scale 1. -/
theorem claim1_witness :
    defaultConfig.min_gross ≤ 1 ∧ (1 : ℚ) ≤ defaultConfig.max_gross ∧
      (0 ≤ computeGross defaultConfig 3 1 ∧
        computeGross defaultConfig 3 1 ≤ defaultConfig.max_gross) :=
  ⟨by norm_num [defaultConfig], by norm_num [defaultConfig],
    claim1_gross_in_zero_max 3 1 (by norm_num [defaultConfig]) (by norm_num [defaultConfig])⟩

/-- C2 counterexample: a cycle that aborts on empty history has already
overwritten the last-processed-date guard (line 239 runs before the fetch),
so the guard does not equal its pre-cycle value. -/
theorem claim2_counterexample :
    (rebalanceStep (fun x => x) defaultConfig (fun _ => true) false 6 HistResult.empty
        { lastRebalanceDate := some 5, portfolio := [], logs := [] }).state.lastRebalanceDate
      ≠ some 5 := by decide

/-- C2 (amended): when a cycle aborts because history is empty or its reshape
fails, no target map is computed and the portfolio is untouched; the only
cross-cycle mutation is the last-processed-date guard, which was already set
to the current date before the history fetch. -/
theorem claim2_abort_no_partial_mutation (sq : ℚ → ℚ) (cfg : Config)
    (tradable : Sym → Bool) (today : ℕ) (hist : HistResult) (s : AlgoState)
    (hh : hist = HistResult.empty ∨ hist = HistResult.reshapeFailed)
    (hg : ¬ s.lastRebalanceDate = some today) :
    (rebalanceStep sq cfg tradable false today hist s).targets = none ∧
      (rebalanceStep sq cfg tradable false today hist s).state.portfolio = s.portfolio ∧
      (rebalanceStep sq cfg tradable false today hist s).state.lastRebalanceDate = some today := by
  rcases hh with h | h <;> subst h <;> simp [rebalanceStep, hg]

/-- Witness for C2 on a concrete aborting cycle. -/
theorem claim2_witness :
    ((HistResult.empty = HistResult.empty ∨ HistResult.empty = HistResult.reshapeFailed) ∧
      ¬ (some 5 : Option ℕ) = some 6) ∧
    ((rebalanceStep (fun x => x) defaultConfig (fun _ => true) false 6 HistResult.empty
        { lastRebalanceDate := some 5, portfolio := [(10, 1)], logs := [] }).targets = none ∧
      (rebalanceStep (fun x => x) defaultConfig (fun _ => true) false 6 HistResult.empty
        { lastRebalanceDate := some 5, portfolio := [(10, 1)], logs := [] }).state.portfolio
        = [(10, 1)] ∧
      (rebalanceStep (fun x => x) defaultConfig (fun _ => true) false 6 HistResult.empty
        { lastRebalanceDate := some 5, portfolio := [(10, 1)], logs := [] }).state.lastRebalanceDate
        = some 6) :=
  ⟨⟨Or.inl rfl, by decide⟩,
    claim2_abort_no_partial_mutation (fun x => x) defaultConfig (fun _ => true) 6
      HistResult.empty { lastRebalanceDate := some 5, portfolio := [(10, 1)], logs := [] }
      (Or.inl rfl) (by decide)⟩

/-- C3: for every score map, every regime label in zero..three and every
non-negative gross budget, every weight produced by `_build_targets` has
absolute value at most `max_weight_per_name` (the configured 0.12). -/
theorem claim3_per_name_cap (tradable : Sym → Bool) (score : ScoreMap)
    (regime : ℤ) (gross : ℚ)
    (hreg : regime = 0 ∨ regime = 1 ∨ regime = 2 ∨ regime = 3) (hg : 0 ≤ gross) :
    ∀ p ∈ buildTargets defaultConfig tradable score regime gross,
      |p.2| ≤ defaultConfig.max_weight_per_name := by
  intro p hp
  exact mem_buildTargets_val hp (by norm_num [defaultConfig])

/-- Witness for C3 on the bear scenario input. -/
theorem claim3_witness :
    (((0 : ℤ) = 0 ∨ (0 : ℤ) = 1 ∨ (0 : ℤ) = 2 ∨ (0 : ℤ) = 3) ∧ (0 : ℚ) ≤ 4/5) ∧
    ∀ p ∈ buildTargets defaultConfig (fun _ => true)
        [(10, 5), (11, 3), (12, 9), (13, 1), (14, 7), (15, 2), (16, 8), (17, 4), (18, 6), (19, 10)]
        0 (4/5),
      |p.2| ≤ defaultConfig.max_weight_per_name :=
  ⟨⟨Or.inl rfl, by norm_num⟩,
    claim3_per_name_cap (fun _ => true)
      [(10, 5), (11, 3), (12, 9), (13, 1), (14, 7), (15, 2), (16, 8), (17, 4), (18, 6), (19, 10)]
      0 (4/5) (Or.inl rfl) (by norm_num)⟩

/-- C4: if, after restricting the score map to tradable instruments, fewer
than `2 * min_names_each_side` instruments remain, `_build_targets` returns
the empty map, for every regime and gross. -/
theorem claim4_universe_floor (cfg : Config) (tradable : Sym → Bool) (score : ScoreMap)
    (regime : ℤ) (gross : ℚ)
    (h : (tradableScores tradable score).length < 2 * cfg.min_names_each_side) :
    buildTargets cfg tradable score regime gross = [] := by
  simp only [buildTargets]
  by_cases h1 : score.length < 2 * cfg.min_names_each_side
  · rw [if_pos h1]
  · rw [if_neg h1, if_pos h]

/-- Witness for C4: four tradable instruments are below the floor of eight. -/
theorem claim4_witness :
    (tradableScores (fun s => s < 14) [(10, 5), (11, 3), (12, 9), (13, 1), (14, 7), (15, 2),
        (16, 8), (17, 4), (18, 6), (19, 10)]).length < 2 * defaultConfig.min_names_each_side ∧
    buildTargets defaultConfig (fun s => s < 14) [(10, 5), (11, 3), (12, 9), (13, 1), (14, 7),
        (15, 2), (16, 8), (17, 4), (18, 6), (19, 10)] 2 1 = [] :=
  ⟨by decide,
    claim4_universe_floor defaultConfig (fun s => s < 14)
      [(10, 5), (11, 3), (12, 9), (13, 1), (14, 7), (15, 2), (16, 8), (17, 4), (18, 6), (19, 10)]
      2 1 (by decide)⟩

/-- C6: bear scenario — for any score map of 10 tradable instruments with
distinct symbols, regime 0 and gross 0.8 select k = max(4, floor(0.50*10)) = 5
instruments, the ones with the lowest scores, each weighted
clip(-0.8/5, -0.12, 0) = -0.12, and the output map has exactly 5 entries. -/
theorem claim6_bear_scenario (tradable : Sym → Bool) (score : ScoreMap)
    (hlen : score.length = 10) (htr : ∀ p ∈ score, tradable p.1 = true)
    (hnd : (score.map Prod.fst).Nodup) :
    buildTargets defaultConfig tradable score 0 (4/5)
        = (bearShorts defaultConfig score).map (fun s => (s, -(3/25))) ∧
      (buildTargets defaultConfig tradable score 0 (4/5)).length = 5 ∧
      (∀ p ∈ buildTargets defaultConfig tradable score 0 (4/5), p.2 = -(3/25)) ∧
      bearK defaultConfig score.length = 5 ∧
      bearShorts defaultConfig score = (nsmallest 5 score).map Prod.fst ∧
      (∀ p ∈ nsmallest 5 score, ∀ q ∈ score,
        q.1 ∉ (nsmallest 5 score).map Prod.fst → p.2 ≤ q.2) := by
  have hsc : tradableScores tradable score = score := List.filter_eq_self.mpr htr
  have ht : truncMul (1/2) 10 = 5 := by
    rw [truncMul_eq_floor]
    norm_num
    rfl
  have hk : bearK defaultConfig score.length = 5 := by
    rw [hlen]
    unfold bearK
    rw [ht]
    rfl
  have hshorts : bearShorts defaultConfig score = (nsmallest 5 score).map Prod.fst := by
    unfold bearShorts
    rw [hk]
  have hshortlen : (bearShorts defaultConfig score).length = 5 := by
    rw [hshorts, List.length_map, length_nsmallest, hlen]
    rfl
  have hw : bearW defaultConfig score (4/5) = -(3/25) := by
    unfold bearW
    rw [hshortlen]
    norm_num [clip, defaultConfig, min_def, max_def]
  have hshortnd : (bearShorts defaultConfig score).Nodup := by
    unfold bearShorts
    exact nodup_keys_nsmallest _ _ hnd
  have hbt : buildTargets defaultConfig tradable score 0 (4/5)
      = assign [] (bearShorts defaultConfig score) (bearW defaultConfig score (4/5)) := by
    simp only [buildTargets, hsc]
    rw [if_neg (by rw [hlen]; decide), if_neg (by rw [hlen]; decide)]
    norm_num
  have hmap : buildTargets defaultConfig tradable score 0 (4/5)
      = (bearShorts defaultConfig score).map (fun s => (s, -(3/25))) := by
    rw [hbt, assign_nil_eq _ _ hshortnd, hw]
  refine ⟨hmap, ?_, ?_, hk, hshorts, ?_⟩
  · rw [hmap, List.length_map, hshortlen]
  · intro p hp
    rw [hmap] at hp
    rcases List.mem_map.mp hp with ⟨s, _, hs⟩
    rw [← hs]
  · intro p hp q hq hqn
    exact nsmallest_le_unselected 5 score hp hq hqn

/-- Witness for C6 on a concrete 10-instrument score map. -/
theorem claim6_witness :
    (([(10, (5:ℚ)), (11, 3), (12, 9), (13, 1), (14, 7), (15, 2), (16, 8), (17, 4), (18, 6),
        (19, 10)] : ScoreMap).length = 10 ∧
      (([(10, (5:ℚ)), (11, 3), (12, 9), (13, 1), (14, 7), (15, 2), (16, 8), (17, 4), (18, 6),
        (19, 10)] : ScoreMap).map Prod.fst).Nodup) ∧
    (buildTargets defaultConfig (fun _ => true)
        [(10, 5), (11, 3), (12, 9), (13, 1), (14, 7), (15, 2), (16, 8), (17, 4), (18, 6), (19, 10)]
        0 (4/5)).length = 5 ∧
    ∀ p ∈ buildTargets defaultConfig (fun _ => true)
        [(10, 5), (11, 3), (12, 9), (13, 1), (14, 7), (15, 2), (16, 8), (17, 4), (18, 6), (19, 10)]
        0 (4/5), p.2 = -(3/25) := by
  have h := claim6_bear_scenario (fun _ => true)
    [(10, 5), (11, 3), (12, 9), (13, 1), (14, 7), (15, 2), (16, 8), (17, 4), (18, 6), (19, 10)]
    (by decide) (fun p _ => rfl) (by decide)
  exact ⟨⟨by decide, by decide⟩, h.2.1, h.2.2.1⟩

/-! Reduction of `_build_targets` to the shared two-sided body. -/

lemma buildTargets_mixed (cfg : Config) (tradable : Sym → Bool) (score : ScoreMap)
    (regime : ℤ) (gross : ℚ) (hreg : regime = 1 ∨ regime = 2)
    (h2 : 2 * cfg.min_names_each_side ≤ (tradableScores tradable score).length) :
    buildTargets cfg tradable score regime gross =
      mixedTargets cfg (tradableScores tradable score)
        (if regime = 2 then (3:ℚ)/10 else 1/4) gross := by
  have hle : (tradableScores tradable score).length ≤ score.length :=
    List.length_filter_le _ _
  have h1 : ¬ score.length < 2 * cfg.min_names_each_side := by omega
  simp only [buildTargets]
  rw [if_neg h1, if_neg (not_lt.mpr h2)]
  rcases hreg with h | h <;> subst h <;> norm_num

lemma length_longNames (cfg : Config) (sc : ScoreMap) (frac : ℚ)
    (hk : mixedK cfg sc.length frac ≤ sc.length) :
    (longNames cfg sc frac).length = mixedK cfg sc.length frac := by
  unfold longNames
  rw [List.length_map, length_nlargest, min_eq_left hk]

lemma length_shortNames (cfg : Config) (sc : ScoreMap) (frac : ℚ)
    (hk : mixedK cfg sc.length frac ≤ sc.length) :
    (shortNames cfg sc frac).length = mixedK cfg sc.length frac := by
  unfold shortNames
  rw [List.length_map, length_nsmallest, min_eq_left hk]

/-- Pre-cap side budgets: the uncapped per-name weights of the two-sided
regimes sum to exactly plus and minus half the gross. -/
lemma mixedTargets_precap (cfg : Config) (sc : ScoreMap) (frac gross : ℚ)
    (hk : mixedK cfg sc.length frac ≤ sc.length)
    (hkpos : 0 < mixedK cfg sc.length frac) :
    ((longNames cfg sc frac).map
        (fun _ => gross * (1/2) / ((longNames cfg sc frac).length : ℚ))).sum
      = gross * (1/2) ∧
    ((shortNames cfg sc frac).map
        (fun _ => -(gross * (1/2)) / ((shortNames cfg sc frac).length : ℚ))).sum
      = -(gross * (1/2)) := by
  have hllen := length_longNames cfg sc frac hk
  have hslen := length_shortNames cfg sc frac hk
  have hne : ((mixedK cfg sc.length frac : ℕ) : ℚ) ≠ 0 := by
    exact_mod_cast Nat.pos_iff_ne_zero.mp hkpos
  constructor
  · rw [List.map_const', List.sum_replicate, nsmul_eq_mul, hllen]
    field_simp
    ring
  · rw [List.map_const', List.sum_replicate, nsmul_eq_mul, hslen]
    field_simp
    ring

/-- Post-cap side budgets: applying the per-name cap can only shrink each
side's total exposure relative to half the gross. -/
lemma mixedTargets_postcap (cfg : Config) (sc : ScoreMap) (frac gross : ℚ)
    (hg : 0 ≤ gross) (hcap : 0 ≤ cfg.max_weight_per_name)
    (hnd : (sc.map Prod.fst).Nodup)
    (hk : mixedK cfg sc.length frac ≤ sc.length)
    (hkpos : 0 < mixedK cfg sc.length frac) :
    posSum (mixedTargets cfg sc frac gross) ≤ gross * (1/2) ∧
      -(gross * (1/2)) ≤ negSum (mixedTargets cfg sc frac gross) := by
  have hllen := length_longNames cfg sc frac hk
  have hslen := length_shortNames cfg sc frac hk
  have hlnd : (longNames cfg sc frac).Nodup := nodup_keys_nlargest _ _ hnd
  have hsnd : (shortNames cfg sc frac).Nodup := nodup_keys_nsmallest _ _ hnd
  have hkQ : (0:ℚ) < ((mixedK cfg sc.length frac : ℕ) : ℚ) := by exact_mod_cast hkpos
  have hlw0 : 0 ≤ mixedLW cfg sc frac gross := lo_le_clip _ _ _ hcap
  have hsw0 : mixedSW cfg sc frac gross ≤ 0 := clip_le_hi _ _ _
  have hlwle : mixedLW cfg sc frac gross
      ≤ gross * (1/2) / ((mixedK cfg sc.length frac : ℕ) : ℚ) := by
    unfold mixedLW
    rw [hllen]
    exact clip_le_of_nonneg _ _ (div_nonneg (by linarith) (le_of_lt hkQ))
  have hswge : -(gross * (1/2)) / ((mixedK cfg sc.length frac : ℕ) : ℚ)
      ≤ mixedSW cfg sc frac gross := by
    unfold mixedSW
    rw [hslen]
    refine le_clip_of_nonpos _ _ ?_
    rw [neg_div]
    have : 0 ≤ gross * (1/2) / ((mixedK cfg sc.length frac : ℕ) : ℚ) :=
      div_nonneg (by linarith) (le_of_lt hkQ)
    linarith
  have hM : assign [] (longNames cfg sc frac) (mixedLW cfg sc frac gross)
      = (longNames cfg sc frac).map (fun s => (s, mixedLW cfg sc frac gross)) :=
    assign_nil_eq _ _ hlnd
  have hMkeys : ((assign [] (longNames cfg sc frac) (mixedLW cfg sc frac gross)).map
      Prod.fst).Nodup := by
    rw [hM, List.map_map]
    have hcomp : (Prod.fst ∘ fun s : Sym => (s, mixedLW cfg sc frac gross)) = id := rfl
    rw [hcomp, List.map_id]
    exact hlnd
  constructor
  · have step1 : posSum (mixedTargets cfg sc frac gross)
        ≤ posSum (assign [] (longNames cfg sc frac) (mixedLW cfg sc frac gross)) := by
      unfold mixedTargets
      exact posSum_assign_le hsw0
    have step2 : posSum (assign [] (longNames cfg sc frac) (mixedLW cfg sc frac gross))
        = ((mixedK cfg sc.length frac : ℕ) : ℚ) * mixedLW cfg sc frac gross := by
      rw [hM, posSum_map_const, hllen, max_eq_left hlw0]
    have hcancel : ((mixedK cfg sc.length frac : ℕ) : ℚ)
        * (gross * (1/2) / ((mixedK cfg sc.length frac : ℕ) : ℚ)) = gross * (1/2) := by
      rw [mul_comm]
      exact div_mul_cancel₀ _ (ne_of_gt hkQ)
    have step3 : ((mixedK cfg sc.length frac : ℕ) : ℚ) * mixedLW cfg sc frac gross
        ≤ gross * (1/2) := by
      have h := mul_le_mul_of_nonneg_left hlwle (le_of_lt hkQ)
      rwa [hcancel] at h
    linarith
  · have step1 : negSum (assign [] (longNames cfg sc frac) (mixedLW cfg sc frac gross))
        + ((shortNames cfg sc frac).length : ℚ) * mixedSW cfg sc frac gross
        ≤ negSum (mixedTargets cfg sc frac gross) := by
      unfold mixedTargets
      exact negSum_assign_ge hMkeys hsw0
    have step2 : negSum (assign [] (longNames cfg sc frac) (mixedLW cfg sc frac gross)) = 0 := by
      rw [hM, negSum_map_const, min_eq_right hlw0, mul_zero]
    have hcancel : ((mixedK cfg sc.length frac : ℕ) : ℚ)
        * (-(gross * (1/2)) / ((mixedK cfg sc.length frac : ℕ) : ℚ)) = -(gross * (1/2)) := by
      rw [mul_comm]
      exact div_mul_cancel₀ _ (ne_of_gt hkQ)
    have step3 : -(gross * (1/2))
        ≤ ((mixedK cfg sc.length frac : ℕ) : ℚ) * mixedSW cfg sc frac gross := by
      have h := mul_le_mul_of_nonneg_left hswge (le_of_lt hkQ)
      rwa [hcancel] at h
    rw [hslen] at step1
    linarith

/-- C9: in the Mixed (2) and Neutral (1) regimes, the pre-cap per-name
weights sum to exactly +0.5*gross on the long side and -0.5*gross on the
short side, and after the per-name cap each side's realized sum is never
larger in magnitude than 0.5*gross. -/
theorem claim9_side_budget (tradable : Sym → Bool) (score : ScoreMap) (regime : ℤ)
    (gross : ℚ) (hreg : regime = 1 ∨ regime = 2) (hg : 0 ≤ gross)
    (hnd : (score.map Prod.fst).Nodup)
    (hlen : 2 * defaultConfig.min_names_each_side ≤ (tradableScores tradable score).length) :
    ((longNames defaultConfig (tradableScores tradable score)
        (if regime = 2 then (3:ℚ)/10 else 1/4)).map
        (fun _ => gross * (1/2) / ((longNames defaultConfig (tradableScores tradable score)
          (if regime = 2 then (3:ℚ)/10 else 1/4)).length : ℚ))).sum = gross * (1/2) ∧
    ((shortNames defaultConfig (tradableScores tradable score)
        (if regime = 2 then (3:ℚ)/10 else 1/4)).map
        (fun _ => -(gross * (1/2)) / ((shortNames defaultConfig (tradableScores tradable score)
          (if regime = 2 then (3:ℚ)/10 else 1/4)).length : ℚ))).sum = -(gross * (1/2)) ∧
    posSum (buildTargets defaultConfig tradable score regime gross) ≤ gross * (1/2) ∧
    -(gross * (1/2)) ≤ negSum (buildTargets defaultConfig tradable score regime gross) := by
  have hfrac0 : 0 ≤ (if regime = 2 then (3:ℚ)/10 else 1/4) := by
    split <;> norm_num
  have hfrac1 : (if regime = 2 then (3:ℚ)/10 else 1/4) ≤ 1 := by
    split <;> norm_num
  have hscnd : ((tradableScores tradable score).map Prod.fst).Nodup :=
    ((List.filter_sublist score).map Prod.fst).nodup hnd
  have hk : mixedK defaultConfig (tradableScores tradable score).length
      (if regime = 2 then (3:ℚ)/10 else 1/4) ≤ (tradableScores tradable score).length :=
    mixedK_le _ _ _ hlen hfrac0 hfrac1
  have hkpos : 0 < mixedK defaultConfig (tradableScores tradable score).length
      (if regime = 2 then (3:ℚ)/10 else 1/4) := by
    unfold mixedK
    exact lt_of_lt_of_le (by norm_num [defaultConfig]) (le_max_left _ _)
  obtain ⟨hpre1, hpre2⟩ := mixedTargets_precap defaultConfig _ _ gross hk hkpos
  obtain ⟨hpos, hneg⟩ := mixedTargets_postcap defaultConfig _ _ gross hg
    (by norm_num [defaultConfig]) hscnd hk hkpos
  rw [buildTargets_mixed defaultConfig tradable score regime gross hreg hlen]
  exact ⟨hpre1, hpre2, hpos, hneg⟩

/-- Witness for C9 on a concrete 8-instrument Mixed-regime input. -/
theorem claim9_witness :
    ((0:ℚ) ≤ 1 ∧ (octoScores.map Prod.fst).Nodup ∧
      2 * defaultConfig.min_names_each_side ≤ (tradableScores (fun _ => true) octoScores).length) ∧
    posSum (buildTargets defaultConfig (fun _ => true) octoScores 2 1) ≤ 1 * (1/2) ∧
    -(1 * (1/2) : ℚ) ≤ negSum (buildTargets defaultConfig (fun _ => true) octoScores 2 1) := by
  have h := claim9_side_budget (fun _ => true) octoScores 2 1 (Or.inr rfl) (by norm_num)
    (by decide) (by decide)
  exact ⟨⟨by norm_num, by decide, by decide⟩, h.2.2.1, h.2.2.2⟩

/-- C10: in the two-sided regimes, an instrument selected by both the top-k
and the bottom-k (possible under ties) ends up with the short-side weight,
because the short loop writes after the long loop, and the output dictionary
then has fewer than 2k entries. -/
theorem claim10_tie_overlap (tradable : Sym → Bool) (score : ScoreMap) (regime : ℤ)
    (gross : ℚ) (sym : Sym) (hreg : regime = 1 ∨ regime = 2)
    (hnd : (score.map Prod.fst).Nodup)
    (hlen : 2 * defaultConfig.min_names_each_side ≤ (tradableScores tradable score).length)
    (hl : sym ∈ longNames defaultConfig (tradableScores tradable score)
      (if regime = 2 then (3:ℚ)/10 else 1/4))
    (hs : sym ∈ shortNames defaultConfig (tradableScores tradable score)
      (if regime = 2 then (3:ℚ)/10 else 1/4)) :
    (sym, mixedSW defaultConfig (tradableScores tradable score)
        (if regime = 2 then (3:ℚ)/10 else 1/4) gross)
      ∈ buildTargets defaultConfig tradable score regime gross ∧
    (∀ p ∈ buildTargets defaultConfig tradable score regime gross, p.1 = sym →
      p.2 = mixedSW defaultConfig (tradableScores tradable score)
        (if regime = 2 then (3:ℚ)/10 else 1/4) gross) ∧
    (buildTargets defaultConfig tradable score regime gross).length
      < 2 * mixedK defaultConfig (tradableScores tradable score).length
        (if regime = 2 then (3:ℚ)/10 else 1/4) := by
  have hfrac0 : 0 ≤ (if regime = 2 then (3:ℚ)/10 else 1/4) := by
    split <;> norm_num
  have hfrac1 : (if regime = 2 then (3:ℚ)/10 else 1/4) ≤ 1 := by
    split <;> norm_num
  have hscnd : ((tradableScores tradable score).map Prod.fst).Nodup :=
    ((List.filter_sublist score).map Prod.fst).nodup hnd
  have hk : mixedK defaultConfig (tradableScores tradable score).length
      (if regime = 2 then (3:ℚ)/10 else 1/4) ≤ (tradableScores tradable score).length :=
    mixedK_le _ _ _ hlen hfrac0 hfrac1
  rw [buildTargets_mixed defaultConfig tradable score regime gross hreg hlen]
  have hlnd : (longNames defaultConfig (tradableScores tradable score)
      (if regime = 2 then (3:ℚ)/10 else 1/4)).Nodup := nodup_keys_nlargest _ _ hscnd
  have hsnd : (shortNames defaultConfig (tradableScores tradable score)
      (if regime = 2 then (3:ℚ)/10 else 1/4)).Nodup := nodup_keys_nsmallest _ _ hscnd
  have hllen := length_longNames defaultConfig (tradableScores tradable score)
    (if regime = 2 then (3:ℚ)/10 else 1/4) hk
  have hslen := length_shortNames defaultConfig (tradableScores tradable score)
    (if regime = 2 then (3:ℚ)/10 else 1/4) hk
  have hM : assign [] (longNames defaultConfig (tradableScores tradable score)
        (if regime = 2 then (3:ℚ)/10 else 1/4))
        (mixedLW defaultConfig (tradableScores tradable score)
          (if regime = 2 then (3:ℚ)/10 else 1/4) gross)
      = (longNames defaultConfig (tradableScores tradable score)
        (if regime = 2 then (3:ℚ)/10 else 1/4)).map
        (fun s => (s, mixedLW defaultConfig (tradableScores tradable score)
          (if regime = 2 then (3:ℚ)/10 else 1/4) gross)) :=
    assign_nil_eq _ _ hlnd
  refine ⟨?_, ?_, ?_⟩
  · unfold mixedTargets
    exact mem_assign_self hsnd hs _ _
  · intro p hp hps
    unfold mixedTargets at hp
    exact assign_key_val hs _ _ p hp hps
  · unfold mixedTargets
    rw [length_assign _ _ _ hsnd]
    have hMlen : (assign [] (longNames defaultConfig (tradableScores tradable score)
        (if regime = 2 then (3:ℚ)/10 else 1/4))
        (mixedLW defaultConfig (tradableScores tradable score)
          (if regime = 2 then (3:ℚ)/10 else 1/4) gross)).length
        = mixedK defaultConfig (tradableScores tradable score).length
          (if regime = 2 then (3:ℚ)/10 else 1/4) := by
      rw [hM, List.length_map, hllen]
    have hkeysym : hasKey (assign [] (longNames defaultConfig (tradableScores tradable score)
        (if regime = 2 then (3:ℚ)/10 else 1/4))
        (mixedLW defaultConfig (tradableScores tradable score)
          (if regime = 2 then (3:ℚ)/10 else 1/4) gross)) sym = true := by
      rw [hasKey_eq_mem_keys, hM, List.map_map]
      have hcomp : (Prod.fst ∘ fun s : Sym => (s, mixedLW defaultConfig
          (tradableScores tradable score)
          (if regime = 2 then (3:ℚ)/10 else 1/4) gross)) = id := rfl
      rw [hcomp, List.map_id]
      exact hl
    have hflt : ((shortNames defaultConfig (tradableScores tradable score)
        (if regime = 2 then (3:ℚ)/10 else 1/4)).filter
        (fun t => ! hasKey (assign [] (longNames defaultConfig (tradableScores tradable score)
          (if regime = 2 then (3:ℚ)/10 else 1/4))
          (mixedLW defaultConfig (tradableScores tradable score)
            (if regime = 2 then (3:ℚ)/10 else 1/4) gross)) t)).length
        < (shortNames defaultConfig (tradableScores tradable score)
          (if regime = 2 then (3:ℚ)/10 else 1/4)).length := by
      refine List.length_filter_lt_length_iff_exists.mpr ⟨sym, hs, ?_⟩
      simp only [hkeysym, Bool.not_true]
      exact Bool.false_ne_true
    rw [hMlen]
    rw [hslen] at hflt
    omega

/-- Witness for C10 on an all-tied concrete input: symbol 0 is selected on
both sides, gets the short weight, and the map has 4 < 8 entries. -/
theorem claim10_witness :
    ((tieScores.map Prod.fst).Nodup ∧
      2 * defaultConfig.min_names_each_side ≤ (tradableScores (fun _ => true) tieScores).length ∧
      0 ∈ longNames defaultConfig (tradableScores (fun _ => true) tieScores)
        (if (2:ℤ) = 2 then (3:ℚ)/10 else 1/4) ∧
      0 ∈ shortNames defaultConfig (tradableScores (fun _ => true) tieScores)
        (if (2:ℤ) = 2 then (3:ℚ)/10 else 1/4)) ∧
    ((0, mixedSW defaultConfig (tradableScores (fun _ => true) tieScores)
        (if (2:ℤ) = 2 then (3:ℚ)/10 else 1/4) 1)
      ∈ buildTargets defaultConfig (fun _ => true) tieScores 2 1 ∧
    (buildTargets defaultConfig (fun _ => true) tieScores 2 1).length
      < 2 * mixedK defaultConfig (tradableScores (fun _ => true) tieScores).length
        (if (2:ℤ) = 2 then (3:ℚ)/10 else 1/4)) := by
  have hkval : mixedK defaultConfig (tradableScores (fun _ => true) tieScores).length
      ((3:ℚ)/10) = 4 := by
    rw [show (tradableScores (fun _ => true) tieScores).length = 8 from by decide]
    unfold mixedK
    rw [show truncMul ((3:ℚ)/10) 8 = 2 from by rw [truncMul_eq_floor]; norm_num; rfl]
    rfl
  have hfr : (if (2:ℤ) = 2 then (3:ℚ)/10 else 1/4) = (3:ℚ)/10 := if_pos rfl
  have hl : (0:ℕ) ∈ longNames defaultConfig (tradableScores (fun _ => true) tieScores)
      (if (2:ℤ) = 2 then (3:ℚ)/10 else 1/4) := by
    rw [hfr]
    unfold longNames
    rw [hkval]
    decide
  have hs : (0:ℕ) ∈ shortNames defaultConfig (tradableScores (fun _ => true) tieScores)
      (if (2:ℤ) = 2 then (3:ℚ)/10 else 1/4) := by
    rw [hfr]
    unfold shortNames
    rw [hkval]
    decide
  have h := claim10_tie_overlap (fun _ => true) tieScores 2 1 0 (Or.inr rfl)
    (by decide) (by decide) hl hs
  exact ⟨⟨by decide, by decide, hl, hs⟩, h.1, h.2.2⟩

/-! Range of the individual regime indicators. -/

lemma regimeC1_cases (cfg : Config) (t : CloseTable) :
    regimeC1 cfg t = 0 ∨ regimeC1 cfg t = 1 := by
  unfold regimeC1
  split
  · left; rfl
  · split
    · right; rfl
    · left; rfl

lemma regimeC2_cases (cfg : Config) (t : CloseTable) :
    regimeC2 cfg t = 0 ∨ regimeC2 cfg t = 1 := by
  simp only [regimeC2]
  split
  · split
    · split
      · right; rfl
      · left; rfl
    · left; rfl
  · left; rfl

lemma regimeC3_cases (cfg : Config) (t : CloseTable) :
    regimeC3 cfg t = 0 ∨ regimeC3 cfg t = 1 := by
  simp only [regimeC3]
  split
  · split
    · split
      · right; rfl
      · left; rfl
    · left; rfl
  · left; rfl

/-- C5: the regime classifier returns 1 whenever a reference column is
missing, and otherwise (on a table whose SOXX column has at least one row,
the only case where the Python code does not raise) returns the sum of the
three indicators, an integer in {0,1,2,3}; an indicator whose ratio series
is too short to average contributes 0. -/
theorem claim5_regime_range (t : CloseTable) :
    (regimeMissing t = true → computeRegimeScore defaultConfig t = some 1) ∧
    (regimeMissing t = false → colOf t soxxSym ≠ [] →
      computeRegimeScore defaultConfig t
          = some (regimeC1 defaultConfig t + regimeC2 defaultConfig t + regimeC3 defaultConfig t) ∧
        (∀ r : ℤ, computeRegimeScore defaultConfig t = some r → 0 ≤ r ∧ r ≤ 3)) ∧
    ((safeRatio (colOf t soxxSym) (colOf t spySym)).length ≤ defaultConfig.regime_ma →
      regimeC2 defaultConfig t = 0) ∧
    ((safeRatio (colOf t iefSym) (colOf t shySym)).length ≤ defaultConfig.regime_ma →
      regimeC3 defaultConfig t = 0) := by
  refine ⟨?_, ?_, ?_, ?_⟩
  · intro h
    simp only [computeRegimeScore]
    rw [if_pos h]
  · intro hmiss hnonempty
    have hlast : (colOf t soxxSym).getLast?.isSome := List.getLast?_isSome.mpr hnonempty
    obtain ⟨v, hv⟩ := Option.isSome_iff_exists.mp hlast
    have heq : computeRegimeScore defaultConfig t
        = some (regimeC1 defaultConfig t + regimeC2 defaultConfig t + regimeC3 defaultConfig t) := by
      simp only [computeRegimeScore]
      rw [if_neg (by rw [hmiss]; exact Bool.false_ne_true), hv]
    refine ⟨heq, ?_⟩
    intro r hr
    rw [heq] at hr
    have hr' : regimeC1 defaultConfig t + regimeC2 defaultConfig t + regimeC3 defaultConfig t
        = r := by
      exact Option.some.inj hr
    rcases regimeC1_cases defaultConfig t with h1 | h1 <;>
      rcases regimeC2_cases defaultConfig t with h2 | h2 <;>
      rcases regimeC3_cases defaultConfig t with h3 | h3 <;>
      rw [h1, h2, h3] at hr' <;> omega
  · intro h
    simp only [regimeC2]
    rw [if_neg (not_lt.mpr h)]
  · intro h
    simp only [regimeC3]
    rw [if_neg (not_lt.mpr h)]

/-- Witness for C5: the empty table (missing columns) yields exactly 1, and a
minimal table carrying all four reference columns yields a score in range. -/
theorem claim5_witness :
    (regimeMissing [] = true ∧ computeRegimeScore defaultConfig [] = some 1) ∧
    (regimeMissing [(0, [some 1]), (1, [some 1]), (2, [some 1]), (3, [some 1])] = false ∧
      colOf [(0, [some 1]), (1, [some 1]), (2, [some 1]), (3, [some 1])] soxxSym ≠ [] ∧
      (0 : ℤ) ≤ regimeC1 defaultConfig [(0, [some 1]), (1, [some 1]), (2, [some 1]), (3, [some 1])]
          + regimeC2 defaultConfig [(0, [some 1]), (1, [some 1]), (2, [some 1]), (3, [some 1])]
          + regimeC3 defaultConfig [(0, [some 1]), (1, [some 1]), (2, [some 1]), (3, [some 1])]
        ∧ regimeC1 defaultConfig [(0, [some 1]), (1, [some 1]), (2, [some 1]), (3, [some 1])]
          + regimeC2 defaultConfig [(0, [some 1]), (1, [some 1]), (2, [some 1]), (3, [some 1])]
          + regimeC3 defaultConfig [(0, [some 1]), (1, [some 1]), (2, [some 1]), (3, [some 1])]
          ≤ 3) := by
  have h1 := (claim5_regime_range []).1 (by decide)
  have h2 := (claim5_regime_range
    [(0, [some 1]), (1, [some 1]), (2, [some 1]), (3, [some 1])]).2.1 (by decide) (by decide)
  exact ⟨⟨by decide, h1⟩, by decide, by decide, h2.2 _ h2.1⟩

/-- C7: the volatility targeter returns exactly 1 through the degenerate
branch when the latest rolling standard deviation is undefined or below 1e-8,
and otherwise returns clip(T / max(vol*sqrt(252), 1e-3), min_gross,
max_gross); an annualized volatility exactly equal to the target T gives a
pre-clip scale of exactly 1. -/
theorem claim7_vol_target (sq : ℚ → ℚ) (closes : List (Option ℚ)) (hne : closes ≠ []) :
    (rollingStdLast sq defaultConfig.vol_target_window (pctChange closes) = none →
      volTargetScale sq defaultConfig closes = some 1) ∧
    (∀ v : ℚ, rollingStdLast sq defaultConfig.vol_target_window (pctChange closes) = some v →
      v < 1/100000000 → volTargetScale sq defaultConfig closes = some 1) ∧
    (∀ v : ℚ, rollingStdLast sq defaultConfig.vol_target_window (pctChange closes) = some v →
      ¬ v < 1/100000000 →
      volTargetScale sq defaultConfig closes
        = some (clip (defaultConfig.target_annual_vol / max (v * sq 252) (1/1000))
            defaultConfig.min_gross defaultConfig.max_gross)) ∧
    (∀ v : ℚ, v * sq 252 = defaultConfig.target_annual_vol →
      defaultConfig.target_annual_vol / max (v * sq 252) (1/1000) = 1) := by
  have hlistne : ¬ closes.isEmpty = true := by
    cases closes with
    | nil => exact absurd rfl hne
    | cons a l => simp
  refine ⟨?_, ?_, ?_, ?_⟩
  · intro h
    simp only [volTargetScale]
    rw [if_neg hlistne, h]
  · intro v hv hsmall
    simp only [volTargetScale]
    rw [if_neg hlistne, hv]
    simp only [if_pos hsmall]
  · intro v hv hbig
    simp only [volTargetScale]
    rw [if_neg hlistne, hv]
    simp only [if_neg hbig]
  · intro v hv
    rw [hv, max_eq_left (by norm_num [defaultConfig])]
    norm_num [defaultConfig]

/-- Witness for C7: a one-row series exercises the degenerate branch (rolling
std undefined, scale exactly 1), and annualized volatility equal to the
target gives pre-clip scale exactly 1. -/
theorem claim7_witness :
    (([some 1] : List (Option ℚ)) ≠ [] ∧
      rollingStdLast (fun _ => (1:ℚ)) defaultConfig.vol_target_window (pctChange [some 1]) = none ∧
      (1/10 : ℚ) * (fun _ => (1:ℚ)) 252 = defaultConfig.target_annual_vol) ∧
    volTargetScale (fun _ => (1:ℚ)) defaultConfig [some 1] = some 1 ∧
    defaultConfig.target_annual_vol / max ((1/10 : ℚ) * (fun _ => (1:ℚ)) 252) (1/1000) = 1 := by
  have h := claim7_vol_target (fun _ => (1:ℚ)) [some 1] (by decide)
  refine ⟨⟨by decide, by decide, by norm_num [defaultConfig]⟩, ?_, ?_⟩
  · exact h.1 (by decide)
  · exact h.2.2.2 (1/10) (by norm_num [defaultConfig])

/-- C8: the weight pipeline is deterministic — two rebalance invocations with
the same history result, the same tradability predicate, the same guard and
the same holdings produce the same target map (diverging log history is
irrelevant). -/
theorem claim8_deterministic (sq : ℚ → ℚ) (cfg : Config) (tradable : Sym → Bool)
    (warmingUp : Bool) (today : ℕ) (hist : HistResult) (s1 s2 : AlgoState)
    (hguard : s1.lastRebalanceDate = s2.lastRebalanceDate)
    (hport : s1.portfolio = s2.portfolio) :
    (rebalanceStep sq cfg tradable warmingUp today hist s1).targets
      = (rebalanceStep sq cfg tradable warmingUp today hist s2).targets := by
  obtain ⟨d1, p1, l1⟩ := s1
  obtain ⟨d2, p2, l2⟩ := s2
  simp only at hguard hport
  subst hguard
  subst hport
  cases warmingUp with
  | true => rfl
  | false =>
    by_cases hd : d1 = some today
    · simp [rebalanceStep, hd]
    · cases hist with
      | empty => simp [rebalanceStep, hd]
      | reshapeFailed => simp [rebalanceStep, hd]
      | ok close =>
        simp only [rebalanceStep, if_neg hd]
        cases computeRegimeScore cfg close with
        | none => rfl
        | some regime =>
          cases volTargetScale sq cfg (colOf close soxxSym) with
          | none => rfl
          | some gscale => rfl

/-- Witness for C8: two states equal except for their log history produce
the same targets. -/
theorem claim8_witness :
    ((AlgoState.mk (some 5) [(10, 1)] []).lastRebalanceDate
        = (AlgoState.mk (some 5) [(10, 1)] [9]).lastRebalanceDate ∧
      (AlgoState.mk (some 5) [(10, 1)] []).portfolio
        = (AlgoState.mk (some 5) [(10, 1)] [9]).portfolio) ∧
    (rebalanceStep (fun x => x) defaultConfig (fun _ => true) false 7 (HistResult.ok [])
        (AlgoState.mk (some 5) [(10, 1)] [])).targets
      = (rebalanceStep (fun x => x) defaultConfig (fun _ => true) false 7 (HistResult.ok [])
        (AlgoState.mk (some 5) [(10, 1)] [9])).targets :=
  ⟨⟨rfl, rfl⟩,
    claim8_deterministic (fun x => x) defaultConfig (fun _ => true) false 7 (HistResult.ok [])
      (AlgoState.mk (some 5) [(10, 1)] []) (AlgoState.mk (some 5) [(10, 1)] [9]) rfl rfl⟩

end SemiLS
